import Mathlib

/-!
Verification development for the `zk_fee_profiler` gas-fee profiler
(`src/zkapp.py`).  The numeric model uses exact rationals `ℚ` for the
fractional "gwei" unit and integers `ℤ` for smallest-unit ("wei") fee
fields; Python's `round` (banker's rounding, round-half-to-even) is
modelled exactly by `rnd`.  Fee fields that may be absent from an RPC
response are modelled as `Option ℤ`, read with a default of `0`, exactly
as the source's `dict.get(..., 0)` / `getattr(..., 0)` fallbacks.
-/

set_option allowUnsafeReducibility true in
attribute [semireducible] Rat.add Rat.sub Rat.mul Rat.inv

namespace ZkFee

/-- Python's `round` on an exact value: round half to even, to an integer. -/
def rnd (x : ℚ) : ℤ :=
  let f := ⌊x⌋
  let r := x - (f : ℚ)
  if r < 1/2 then f
  else if 1/2 < r then f + 1
  else if f % 2 = 0 then f else f + 1

/-- Python's `round(x, 3)`. -/
def round3 (x : ℚ) : ℚ := (rnd (x * 1000) : ℚ) / 1000

/-- Python's `round(x, 2)`. -/
def round2 (x : ℚ) : ℚ := (rnd (x * 100) : ℚ) / 100

/-- `Web3.from_wei(x, "gwei")`: divide by 10^9. -/
def fromWei (x : ℤ) : ℚ := (x : ℚ) / 1000000000

/-- `statistics.median`: sort ascending; odd length takes the middle
element, even length averages the two middle elements.  (The source only
calls it on non-empty lists; we return 0 on `[]`, matching the source's
`... if xs else 0.0` guards.) -/
def median (l : List ℚ) : ℚ :=
  let s := List.insertionSort (· ≤ ·) l
  let n := s.length
  if n = 0 then 0
  else if n % 2 = 1 then s.getD (n / 2) 0
  else (s.getD (n / 2 - 1) 0 + s.getD (n / 2) 0) / 2

/-- `pct(values, q)` from `src/zkapp.py` lines 51-57: empty series gives
0.0; clamp `q` to `[0,1]`; sort ascending; return the element at index
`int(round(q * (len - 1)))`. -/
def pct (values : List ℚ) (q : ℚ) : ℚ :=
  if values = [] then 0
  else
    let q1 := max 0 (min 1 q)
    let s := List.insertionSort (· ≤ ·) values
    let idx := (rnd (q1 * ((s.length : ℚ) - 1))).toNat
    s.getD idx 0

/-- A transaction as delivered by the RPC: a `type` discriminant and fee
fields, any of which may be missing (read with default 0 by the source). -/
structure Tx where
  type : Option ℤ
  gasPrice : Option ℤ
  maxFeePerGas : Option ℤ
  maxPriorityFeePerGas : Option ℤ
deriving DecidableEq

/-- A block: `baseFeePerGas` (possibly absent, default 0) and the ordered
transaction list. -/
structure Block where
  baseFeePerGas : Option ℤ
  transactions : List Tx
deriving DecidableEq

/-- Result shape of `sample_block_fees`. -/
structure BlockStats where
  base_fee_gwei : ℚ
  median_effective_gwei : ℚ
  median_tip_gwei : ℚ
deriving DecidableEq

/-- The per-transaction loop of `sample_block_fees` (lines 74-94):
builds the effective-price and tip lists, in transaction order. -/
def extract_lists (bf : ℤ) : List Tx → List ℚ × List ℚ
  | [] => ([], [])
  | tx :: rest =>
    let p := extract_lists bf rest
    let tx_type := tx.type.getD 0
    if tx_type = 2 then
      let max_priority := tx.maxPriorityFeePerGas.getD 0
      let max_fee := tx.maxFeePerGas.getD 0
      let eff := min max_fee (bf + max_priority)
      (fromWei eff :: p.1, fromWei max_priority :: p.2)
    else
      let gas_price := tx.gasPrice.getD 0
      (fromWei gas_price :: p.1, fromWei (max 0 (gas_price - bf)) :: p.2)

/-- `sample_block_fees` from `src/zkapp.py` lines 60-100. -/
def sample_block_fees (b : Block) : BlockStats :=
  let base_fee_wei := b.baseFeePerGas.getD 0
  let p := extract_lists base_fee_wei b.transactions
  { base_fee_gwei := fromWei base_fee_wei
    median_effective_gwei := if p.1 = [] then 0 else median p.1
    median_tip_gwei := if p.2 = [] then 0 else median p.2 }

/-- Effective gas price of one transaction, as the spec states it:
type-2 pays `min(maxFeePerGas, baseFee + maxPriorityFeePerGas)`, any
other type pays `gasPrice`; converted to gwei. -/
def eff_price_spec (bf : ℤ) (tx : Tx) : ℚ :=
  if tx.type.getD 0 = 2 then fromWei (min (tx.maxFeePerGas.getD 0) (bf + tx.maxPriorityFeePerGas.getD 0))
  else fromWei (tx.gasPrice.getD 0)

/-- Tip of one transaction, as the spec states it: type-2 tips
`maxPriorityFeePerGas`, any other type tips `max(0, gasPrice - baseFee)`;
converted to gwei. -/
def tip_spec (bf : ℤ) (tx : Tx) : ℚ :=
  if tx.type.getD 0 = 2 then fromWei (tx.maxPriorityFeePerGas.getD 0)
  else fromWei (max 0 (tx.gasPrice.getD 0 - bf))

/-- The extractor as the spec's reference definition words it: base fee is
`baseFeePerGas / 1e9` (0 if absent); the two medians are the statistical
medians of the per-transaction effective prices and tips, or 0.0 when the
respective sequence is empty. -/
def sample_block_fees_spec (b : Block) : BlockStats :=
  let bf := b.baseFeePerGas.getD 0
  let effs := b.transactions.map (eff_price_spec bf)
  let tips := b.transactions.map (tip_spec bf)
  { base_fee_gwei := fromWei bf
    median_effective_gwei := if effs = [] then 0 else median effs
    median_tip_gwei := if tips = [] then 0 else median tips }

/-- `network_name` from `src/zkapp.py`: the `NETWORKS` table with the
templated fallback string. -/
def network_name (cid : ℤ) : String :=
  if cid = 1 then "Ethereum Mainnet"
  else if cid = 11155111 then "Sepolia Testnet"
  else if cid = 10 then "Optimism"
  else if cid = 137 then "Polygon"
  else if cid = 42161 then "Arbitrum One"
  else if cid = 8453 then "Base"
  else "Unknown (chain ID " ++ toString cid ++ ")"

/-- The `baseFeeGwei` sub-record of the report. -/
structure BaseFeeGwei where
  p50 : ℚ
  pTarget : ℚ
  min : ℚ
  max : ℚ
deriving DecidableEq

/-- The `medianTipGwei` sub-record of the report. -/
structure MedianTipGwei where
  p50 : ℚ
  pTarget : ℚ
deriving DecidableEq

/-- The `recommendedForZK` sub-record of the report. -/
structure RecommendedForZK where
  maxPriorityFeeGwei : ℚ
  maxFeePerGasGwei : ℚ
deriving DecidableEq

/-- The dictionary returned by `analyze_fees` (the `FeeReport`). -/
structure FeeReport where
  chainId : ℤ
  network : String
  head : ℤ
  sampledBlocks : ℕ
  blockWindow : ℤ
  step : ℤ
  targetPercentile : ℚ
  timingSec : ℚ
  baseFeeGwei : BaseFeeGwei
  medianEffectivePriceGwei : ℚ
  medianTipGwei : MedianTipGwei
  recommendedForZK : RecommendedForZK
deriving DecidableEq

/-- Python's `min` over a non-empty list (0 for `[]`, unused there). -/
def listMin : List ℚ → ℚ
  | [] => 0
  | x :: xs => xs.foldl min x

/-- Python's `max` over a non-empty list (0 for `[]`, unused there). -/
def listMax : List ℚ → ℚ
  | [] => 0
  | x :: xs => xs.foldl max x

/-- The heights visited by `range(head, start_block - 1, -step)` in the
sampling loop (line 121): `head, head - step, head - 2*step, …`, keeping
every height `≥ fl` where `fl` is `start_block`. -/
def sampleHeights (head fl s : ℤ) : List ℤ :=
  if head < fl then []
  else (List.range ((head - fl).toNat / s.toNat + 1)).map (fun i : ℕ => head - (i : ℤ) * s)

/-- The body of the sampling loop (lines 121-129): fetch each height from
the chain client (`none` = `BlockFetchError`, which aborts the whole
analysis), extract the block's stats, append `base_fee_gwei`
unconditionally and the two medians only when `> 0`. -/
def collect (client : ℤ → Option Block) : List ℤ → Option (List ℚ × List ℚ × List ℚ)
  | [] => some ([], [], [])
  | n :: rest =>
    match client n with
    | none => none
    | some blk =>
      match collect client rest with
      | none => none
      | some (bs, es, ts) =>
        let stats := sample_block_fees blk
        some (stats.base_fee_gwei :: bs,
          if stats.median_effective_gwei > 0 then stats.median_effective_gwei :: es else es,
          if stats.median_tip_gwei > 0 then stats.median_tip_gwei :: ts else ts)

/-- `recommended_tip` (line 142): `round(max(tip_p50, tip_target) * 1.2, 3)`
with `tip_p50`/`tip_target` the guarded median/percentile of the tip
series (lines 139-140). -/
def recommended_tip (tips : List ℚ) (q : ℚ) : ℚ :=
  round3 (max (if tips = [] then 0 else median tips)
      (if tips = [] then 0 else pct tips q) * (6/5))

/-- `recommended_max_fee` (line 143): `round(base_target + recommended_tip, 3)`
with `base_target` the guarded percentile of the base-fee series (line 137). -/
def recommended_max_fee (base_fees tips : List ℚ) (q : ℚ) : ℚ :=
  round3 ((if base_fees = [] then 0 else pct base_fees q) + recommended_tip tips q)

/-- `analyze_fees` from `src/zkapp.py` lines 103-171.  The chain client is
a function from height to `Option Block` (`none` models a failed fetch);
`chain_id` stands for `w3.eth.chain_id`; `t0`/`t1` are the wall-clock
readings taken by `time.time()` before and after the sampling loop, so
`timingSec` is `round(t1 - t0, 2)`. -/
def analyze_fees (client : ℤ → Option Block) (chain_id : ℤ) (blocks step : ℤ)
    (target_pct : ℚ) (head : ℤ) (t0 t1 : ℚ) : Option FeeReport :=
  let start_block := max 0 (head - blocks + 1)
  let hs := sampleHeights head start_block step
  match collect client hs with
  | none => none
  | some (base_fees, effs, tips) =>
    let elapsed := t1 - t0
    let base_p50 := if base_fees = [] then 0 else median base_fees
    let base_target := if base_fees = [] then 0 else pct base_fees target_pct
    let tip_p50 := if tips = [] then 0 else median tips
    let tip_target := if tips = [] then 0 else pct tips target_pct
    some {
      chainId := chain_id
      network := network_name chain_id
      head := head
      sampledBlocks := hs.length
      blockWindow := blocks
      step := step
      targetPercentile := target_pct
      timingSec := round2 elapsed
      baseFeeGwei := {
        p50 := round3 base_p50
        pTarget := round3 base_target
        min := if base_fees = [] then 0 else round3 (listMin base_fees)
        max := if base_fees = [] then 0 else round3 (listMax base_fees) }
      medianEffectivePriceGwei := if effs = [] then 0 else round3 (median effs)
      medianTipGwei := { p50 := round3 tip_p50, pTarget := round3 tip_target }
      recommendedForZK := {
        maxPriorityFeeGwei := recommended_tip tips target_pct
        maxFeePerGasGwei := recommended_max_fee base_fees tips target_pct } }

/-- Fetch every height from the client, failing if any fetch fails (proof
vehicle used to state what `collect` appends). -/
def fetch (client : ℤ → Option Block) : List ℤ → Option (List Block)
  | [] => some []
  | n :: rest =>
    match client n with
    | none => none
    | some b =>
      match fetch client rest with
      | none => none
      | some bl => some (b :: bl)

/-- A report with its `timingSec` field blanked, to compare reports up to
the wall-clock timing. -/
def eraseTiming (r : FeeReport) : FeeReport := { r with timingSec := 0 }

/-- A concrete chain client for witnesses: every height resolves to an
empty block with `baseFeePerGas = 2e9` (2 gwei). -/
def client0 : ℤ → Option Block := fun _ => some ⟨some 2000000000, []⟩

/-- The report `analyze_fees client0 1 2 1 (1/2) 3 0 1` produces. -/
def report0 : FeeReport :=
  { chainId := 1
    network := "Ethereum Mainnet"
    head := 3
    sampledBlocks := 2
    blockWindow := 2
    step := 1
    targetPercentile := 1/2
    timingSec := 1
    baseFeeGwei := ⟨2, 2, 2, 2⟩
    medianEffectivePriceGwei := 0
    medianTipGwei := ⟨0, 0⟩
    recommendedForZK := ⟨0, 2⟩ }

/-- The report `analyze_fees client0 1 2 1 2 3 0 0` produces: same data,
out-of-range target percentile 2 passed through, zero elapsed time. -/
def report1 : FeeReport :=
  { report0 with targetPercentile := 2, timingSec := 0 }

/-- A concrete block for witnesses: base fee 5, one type-2 transaction
(`maxFeePerGas = 10`, `maxPriorityFeePerGas = 3`) and one legacy
transaction (`gasPrice = 7`). -/
def block0 : Block :=
  ⟨some 5, [⟨some 2, none, some 10, some 3⟩, ⟨some 0, some 7, none, none⟩]⟩

/-! ### Helper lemmas -/

lemma floor_le_rnd (x : ℚ) : ⌊x⌋ ≤ rnd x := by
  unfold rnd
  dsimp only
  split_ifs <;> omega

lemma rnd_le_floor_add_one (x : ℚ) : rnd x ≤ ⌊x⌋ + 1 := by
  unfold rnd
  dsimp only
  split_ifs <;> omega

lemma rnd_nonneg {x : ℚ} (h : 0 ≤ x) : 0 ≤ rnd x :=
  le_trans (Int.floor_nonneg.mpr h) (floor_le_rnd x)

lemma rnd_le_int {x : ℚ} {k : ℤ} (h : x ≤ (k : ℚ)) : rnd x ≤ k := by
  have h1 : ⌊x⌋ ≤ k := by
    have := Int.floor_le_floor h
    simpa using this
  rcases lt_or_eq_of_le h1 with h2 | h2
  · exact le_trans (rnd_le_floor_add_one x) (by omega)
  · unfold rnd
    dsimp only
    have hr : x - (⌊x⌋ : ℚ) < 1/2 := by
      have : x - (⌊x⌋ : ℚ) ≤ 0 := by
        rw [h2]
        linarith
      linarith
    rw [if_pos hr]
    omega

lemma rnd_intCast (k : ℤ) : rnd (k : ℚ) = k :=
  le_antisymm (rnd_le_int le_rfl) (by simpa using floor_le_rnd (k : ℚ))

lemma rnd_mono {x y : ℚ} (h : x ≤ y) : rnd x ≤ rnd y := by
  rcases lt_or_le ⌊x⌋ ⌊y⌋ with hf | hf
  · calc rnd x ≤ ⌊x⌋ + 1 := rnd_le_floor_add_one x
    _ ≤ ⌊y⌋ := hf
    _ ≤ rnd y := floor_le_rnd y
  · have hf' : ⌊y⌋ = ⌊x⌋ := le_antisymm hf (Int.floor_le_floor h)
    unfold rnd
    dsimp only
    rw [hf']
    have hr : x - (⌊x⌋ : ℚ) ≤ y - (⌊x⌋ : ℚ) := by linarith
    split_ifs <;> first | omega | (exfalso; linarith)

lemma round3_mono {x y : ℚ} (h : x ≤ y) : round3 x ≤ round3 y := by
  unfold round3
  have := rnd_mono (mul_le_mul_of_nonneg_right h (by norm_num : (0:ℚ) ≤ 1000))
  have hc : ((rnd (x * 1000) : ℤ) : ℚ) ≤ ((rnd (y * 1000) : ℤ) : ℚ) := by exact_mod_cast this
  linarith

lemma median_nil : median ([] : List ℚ) = 0 := rfl

lemma pct_nil (q : ℚ) : pct [] q = 0 := rfl

lemma getD_mem {l : List ℚ} {i : ℕ} (h : i < l.length) : l.getD i 0 ∈ l := by
  rw [List.getD_eq_getElem _ _ h]
  exact List.getElem_mem h

lemma sorted_getD_mono {s : List ℚ} (hs : List.Sorted (· ≤ ·) s) {i j : ℕ}
    (hij : i ≤ j) (hj : j < s.length) : s.getD i 0 ≤ s.getD j 0 := by
  have hi : i < s.length := lt_of_le_of_lt hij hj
  rw [List.getD_eq_getElem _ _ hi, List.getD_eq_getElem _ _ hj]
  rcases lt_or_eq_of_le hij with h | h
  · exact List.pairwise_iff_getElem.mp hs i j hi hj h
  · subst h
    rfl

lemma clamp_idem (q : ℚ) : max 0 (min 1 (max 0 (min 1 q))) = max 0 (min 1 q) := by
  have h0 : (0 : ℚ) ≤ max 0 (min 1 q) := le_max_left _ _
  have h1 : max 0 (min 1 q) ≤ 1 := max_le (by norm_num) (min_le_left _ _)
  rw [min_eq_right h1, max_eq_right h0]

lemma sort_length_pos {values : List ℚ} (h : values ≠ []) :
    0 < (List.insertionSort (· ≤ ·) values).length := by
  rw [List.length_insertionSort]
  exact List.length_pos.mpr h

lemma pct_eq_getD (values : List ℚ) (h : values ≠ []) (q : ℚ) :
    pct values q = (List.insertionSort (· ≤ ·) values).getD
      (rnd (max 0 (min 1 q) * (((List.insertionSort (· ≤ ·) values).length : ℚ) - 1))).toNat 0 := by
  unfold pct
  rw [if_neg h]

lemma pct_clamp (values : List ℚ) (q : ℚ) :
    pct values q = pct values (max 0 (min 1 q)) := by
  simp only [pct, clamp_idem]

lemma pct_zero_min {values : List ℚ} (h : values ≠ []) :
    pct values 0 ∈ values ∧ ∀ x ∈ values, pct values 0 ≤ x := by
  have hperm := List.perm_insertionSort (· ≤ ·) values
  have hsort := List.sorted_insertionSort (r := (· ≤ ·)) values
  have hlen := sort_length_pos h
  have hq : max 0 (min 1 (0:ℚ)) = 0 := by norm_num
  have hpct : pct values 0 = (List.insertionSort (· ≤ ·) values).getD 0 0 := by
    have h0 : rnd (0:ℚ) = (0:ℤ) := by simpa using rnd_intCast 0
    rw [pct_eq_getD values h 0, hq, zero_mul, h0]
    rfl
  constructor
  · rw [hpct]
    exact hperm.mem_iff.mp (getD_mem hlen)
  · intro x hx
    obtain ⟨j, hj, rfl⟩ := List.mem_iff_getElem.mp (hperm.mem_iff.mpr hx)
    rw [hpct, ← List.getD_eq_getElem _ 0 hj]
    exact sorted_getD_mono hsort (Nat.zero_le j) hj

lemma pct_one_max {values : List ℚ} (h : values ≠ []) :
    pct values 1 ∈ values ∧ ∀ x ∈ values, x ≤ pct values 1 := by
  have hperm := List.perm_insertionSort (· ≤ ·) values
  have hsort := List.sorted_insertionSort (r := (· ≤ ·)) values
  have hlen := sort_length_pos h
  set s := List.insertionSort (· ≤ ·) values with hs
  have hq : max 0 (min 1 (1:ℚ)) = 1 := by norm_num
  have hcast : ((s.length : ℚ) - 1) = (((s.length : ℤ) - 1 : ℤ) : ℚ) := by push_cast; ring
  have hidx : (rnd (max 0 (min 1 (1:ℚ)) * ((s.length : ℚ) - 1))).toNat = s.length - 1 := by
    rw [hq, one_mul, hcast, rnd_intCast]
    omega
  have hpct : pct values 1 = s.getD (s.length - 1) 0 := by
    rw [pct_eq_getD values h 1, ← hs, hidx]
  have hlt : s.length - 1 < s.length := by omega
  constructor
  · rw [hpct]
    exact hperm.mem_iff.mp (getD_mem hlt)
  · intro x hx
    obtain ⟨j, hj, rfl⟩ := List.mem_iff_getElem.mp (hperm.mem_iff.mpr hx)
    rw [hpct, ← List.getD_eq_getElem _ 0 hj]
    exact sorted_getD_mono hsort (by omega) hlt

lemma pct_mono_q (values : List ℚ) {a b : ℚ} (hab : a ≤ b) :
    pct values a ≤ pct values b := by
  by_cases h : values = []
  · subst h
    simp [pct_nil]
  · have hsort := List.sorted_insertionSort (r := (· ≤ ·)) values
    have hlen := sort_length_pos h
    set s := List.insertionSort (· ≤ ·) values with hs
    rw [pct_eq_getD values h a, pct_eq_getD values h b, ← hs]
    have hnn : (0:ℚ) ≤ (s.length : ℚ) - 1 := by
      have : (1:ℚ) ≤ (s.length : ℚ) := by exact_mod_cast hlen
      linarith
    have hc : max 0 (min 1 a) ≤ max 0 (min 1 b) :=
      max_le_max le_rfl (min_le_min le_rfl hab)
    have hmul := mul_le_mul_of_nonneg_right hc hnn
    have hmono := Int.toNat_le_toNat (rnd_mono hmul)
    have hub : max 0 (min 1 b) * ((s.length : ℚ) - 1) ≤ (((s.length : ℤ) - 1 : ℤ) : ℚ) := by
      have hb1 : max 0 (min 1 b) ≤ 1 := max_le (by norm_num) (min_le_left _ _)
      have := mul_le_mul_of_nonneg_right hb1 hnn
      rw [one_mul] at this
      push_cast
      linarith
    have hhi : (rnd (max 0 (min 1 b) * ((s.length : ℚ) - 1))).toNat < s.length := by
      have := rnd_le_int hub
      omega
    exact sorted_getD_mono hsort hmono hhi

/-- C3: `pct` clamps `q` to `[0,1]`, sorts ascending and picks the
nearest-rank element, so on a non-empty series `pct values 0` is the
minimum, `pct values 1` is the maximum, `pct` is invariant under clamping
its argument, and on the empty series it is 0 for every `q`. -/
theorem pct_spec (values : List ℚ) (q : ℚ) (h : values ≠ []) :
    (pct values 0 ∈ values ∧ ∀ x ∈ values, pct values 0 ≤ x) ∧
    (pct values 1 ∈ values ∧ ∀ x ∈ values, x ≤ pct values 1) ∧
    pct values q = pct values (max 0 (min 1 q)) ∧
    (∀ p : ℚ, pct [] p = 0) :=
  ⟨pct_zero_min h, pct_one_max h, pct_clamp values q, fun p => pct_nil p⟩

/-- Witness for C3 at `values = [10, 30, 20]`, `q = 7/10`. -/
theorem pct_spec_witness :
    ([10, 30, 20] : List ℚ) ≠ [] ∧
    (pct [10, 30, 20] 0 ∈ ([10, 30, 20] : List ℚ) ∧
      ∀ x ∈ ([10, 30, 20] : List ℚ), pct [10, 30, 20] 0 ≤ x) ∧
    (pct [10, 30, 20] 1 ∈ ([10, 30, 20] : List ℚ) ∧
      ∀ x ∈ ([10, 30, 20] : List ℚ), x ≤ pct [10, 30, 20] 1) ∧
    pct [10, 30, 20] (7/10) = pct [10, 30, 20] (max 0 (min 1 (7/10))) ∧
    (∀ p : ℚ, pct [] p = 0) :=
  ⟨by decide, pct_spec [10, 30, 20] (7/10) (by decide)⟩

lemma extract_lists_eq (bf : ℤ) (l : List Tx) :
    extract_lists bf l = (l.map (eff_price_spec bf), l.map (tip_spec bf)) := by
  induction l with
  | nil => rfl
  | cons tx rest ih =>
    simp only [extract_lists, ih, List.map_cons, eff_price_spec, tip_spec]
    by_cases htx : tx.type.getD 0 = 2 <;> simp [htx]

/-- C1: the extractor `sample_block_fees` agrees with the spec's reference
definition on every block: base fee is `baseFeePerGas / 1e9` (0 if the
field is absent); each type-2 transaction contributes effective price
`min(maxFeePerGas, baseFee + maxPriorityFeePerGas)` and tip
`maxPriorityFeePerGas`, every other transaction contributes `gasPrice` and
`max(0, gasPrice - baseFee)`, all in gwei; the two result medians are the
statistical medians of those sequences, or 0.0 on an empty sequence. -/
theorem extractor_matches_spec (b : Block) :
    sample_block_fees b = sample_block_fees_spec b := by
  simp only [sample_block_fees, sample_block_fees_spec, extract_lists_eq]

/-- C4: with `head ≥ 0`, `w > 0`, `s > 0` the sampled heights are exactly
the arithmetic sequence `head, head - s, head - 2s, …` cut off at the
floor `max(0, head - w + 1)`, in strictly descending order; concretely,
`w = 1000`, `head = 5`, `s = 3` samples exactly `[5, 2]` and the report's
`sampledBlocks` is 2. -/
theorem sampling_heights_spec (head w s : ℤ) (hh : 0 ≤ head) (hw : 0 < w) (hs : 0 < s) :
    (∀ x : ℤ, x ∈ sampleHeights head (max 0 (head - w + 1)) s ↔
      ∃ i : ℕ, x = head - (i : ℤ) * s ∧ max 0 (head - w + 1) ≤ x) ∧
    (sampleHeights head (max 0 (head - w + 1)) s).Pairwise (· > ·) ∧
    sampleHeights 5 (max 0 (5 - 1000 + 1)) 3 = [5, 2] ∧
    (analyze_fees client0 1 1000 3 (1/2) 5 0 0).map (fun r => r.sampledBlocks) = some 2 := by
  set fl := max 0 (head - w + 1) with hfldef
  have hfl : fl ≤ head := max_le hh (by omega)
  have hsn : 0 < s.toNat := by omega
  have hsz : ((s.toNat : ℕ) : ℤ) = s := Int.toNat_of_nonneg (le_of_lt hs)
  have hdz : (((head - fl).toNat : ℕ) : ℤ) = head - fl := Int.toNat_of_nonneg (by omega)
  have hopen : sampleHeights head fl s =
      (List.range ((head - fl).toNat / s.toNat + 1)).map (fun i : ℕ => head - (i : ℤ) * s) := by
    unfold sampleHeights
    rw [if_neg (not_lt.mpr hfl)]
  refine ⟨?_, ?_, by decide, by decide⟩
  · intro x
    rw [hopen]
    constructor
    · intro hx
      obtain ⟨i, hi, rfl⟩ := List.mem_map.mp hx
      rw [List.mem_range] at hi
      refine ⟨i, rfl, ?_⟩
      have hle : i * s.toNat ≤ (head - fl).toNat :=
        (Nat.le_div_iff_mul_le hsn).mp (by omega)
      have hz : ((i * s.toNat : ℕ) : ℤ) ≤ (((head - fl).toNat : ℕ) : ℤ) :=
        Int.ofNat_le.mpr hle
      push_cast [hsz] at hz
      rw [hdz] at hz
      linarith
    · rintro ⟨i, rfl, hge⟩
      apply List.mem_map.mpr
      refine ⟨i, List.mem_range.mpr ?_, rfl⟩
      have hz : ((i * s.toNat : ℕ) : ℤ) ≤ (((head - fl).toNat : ℕ) : ℤ) := by
        push_cast [hsz]
        rw [hdz]
        linarith
      have hle : i * s.toNat ≤ (head - fl).toNat := Int.ofNat_le.mp hz
      have := (Nat.le_div_iff_mul_le hsn).mpr hle
      omega
  · rw [hopen, List.pairwise_map]
    refine (List.pairwise_lt_range _).imp ?_
    intro a b hab
    have : (a : ℤ) * s < (b : ℤ) * s :=
      mul_lt_mul_of_pos_right (by exact_mod_cast hab) hs
    simp only [gt_iff_lt]
    linarith

/-- Witness for C4 at `head = 5`, `w = 1000`, `s = 3`, checking the
membership characterization at `x = 2`. -/
theorem sampling_heights_spec_witness :
    (0:ℤ) ≤ 5 ∧ (0:ℤ) < 1000 ∧ (0:ℤ) < 3 ∧
    ((2:ℤ) ∈ sampleHeights 5 (max 0 (5 - 1000 + 1)) 3 ↔
      ∃ i : ℕ, (2:ℤ) = 5 - (i : ℤ) * 3 ∧ max 0 (5 - 1000 + 1) ≤ (2:ℤ)) :=
  ⟨by decide, by decide, by decide,
    (sampling_heights_spec 5 1000 3 (by decide) (by decide) (by decide)).1 2⟩

/-- C5: on the success path the collected series are exactly: the base fee
of every fetched block (unconditionally), and the per-block median
effective prices and median tips filtered to the strictly positive
entries. -/
theorem collect_append_policy (client : ℤ → Option Block) (hs : List ℤ) :
    collect client hs = (fetch client hs).map (fun blks =>
      (blks.map (fun b => (sample_block_fees b).base_fee_gwei),
       (blks.map (fun b => (sample_block_fees b).median_effective_gwei)).filter (fun v => v > 0),
       (blks.map (fun b => (sample_block_fees b).median_tip_gwei)).filter (fun v => v > 0))) := by
  induction hs with
  | nil => rfl
  | cons n rest ih =>
    simp only [collect, fetch]
    cases client n with
    | none => rfl
    | some b =>
      cases hf : fetch client rest with
      | none =>
        rw [hf] at ih
        simp only [Option.map_none'] at ih
        rw [ih]
        rfl
      | some blks =>
        rw [hf] at ih
        simp only [Option.map_some'] at ih
        rw [ih]
        simp only [Option.map_some', List.map_cons, List.filter_cons]
        by_cases h1 : (sample_block_fees b).median_effective_gwei > 0 <;>
          by_cases h2 : (sample_block_fees b).median_tip_gwei > 0 <;>
            simp [h1, h2]

lemma collect_none_of_mem {client : ℤ → Option Block} {hs : List ℤ} {n : ℤ}
    (hn : n ∈ hs) (hc : client n = none) : collect client hs = none := by
  induction hs with
  | nil => cases hn
  | cons m rest ih =>
    rcases List.mem_cons.mp hn with rfl | hmem
    · simp [collect, hc]
    · simp only [collect]
      cases client m with
      | none => rfl
      | some b => rw [ih hmem]

/-- C6: if any sampled height fails to resolve to a block, `analyze_fees`
returns no report at all — the failure is fatal, with no partial result. -/
theorem analyze_fetch_failure (client : ℤ → Option Block) (cid w s : ℤ) (q : ℚ)
    (head : ℤ) (t0 t1 : ℚ)
    (h : ∃ n ∈ sampleHeights head (max 0 (head - w + 1)) s, client n = none) :
    analyze_fees client cid w s q head t0 t1 = none := by
  obtain ⟨n, hn, hc⟩ := h
  simp only [analyze_fees]
  rw [collect_none_of_mem hn hc]

/-- Witness for C6: a client that fails at height 0 makes the whole
analysis fail. -/
theorem analyze_fetch_failure_witness :
    (∃ n ∈ sampleHeights 0 (max 0 (0 - 1 + 1)) 1, (fun _ => (none : Option Block)) n = none) ∧
    analyze_fees (fun _ => none) 1 1 1 (1/2) 0 0 0 = none :=
  ⟨⟨0, by decide, rfl⟩,
    analyze_fetch_failure (fun _ => none) 1 1 1 (1/2) 0 0 0 ⟨0, by decide, rfl⟩⟩

/-- C2: on the success path the recommendation in the report is
`recommendedTip = round(max(median(tips), pct(tips, q)) * 1.2, 3)` and
`recommendedMaxFee = round(pct(baseFees, q) + recommendedTip, 3)` over the
collected series. -/
theorem analyze_recommendation (client : ℤ → Option Block) (cid w s : ℤ) (q : ℚ)
    (head : ℤ) (t0 t1 : ℚ) (r : FeeReport) (bs es ts : List ℚ)
    (hc : collect client (sampleHeights head (max 0 (head - w + 1)) s) = some (bs, es, ts))
    (hr : analyze_fees client cid w s q head t0 t1 = some r) :
    r.recommendedForZK.maxPriorityFeeGwei = round3 (max (median ts) (pct ts q) * (6/5)) ∧
    r.recommendedForZK.maxFeePerGasGwei =
      round3 (pct bs q + r.recommendedForZK.maxPriorityFeeGwei) := by
  simp only [analyze_fees] at hr
  rw [hc] at hr
  obtain rfl := Option.some_inj.mp hr
  constructor
  · show recommended_tip ts q = _
    unfold recommended_tip
    by_cases h : ts = []
    · subst h
      simp [median_nil, pct_nil]
    · rw [if_neg h, if_neg h]
  · show recommended_max_fee bs ts q = round3 (pct bs q + recommended_tip ts q)
    unfold recommended_max_fee
    by_cases h : bs = []
    · subst h
      simp [pct_nil]
    · rw [if_neg h]

/-- Witness for C2 on `client0` (two empty blocks at 2 gwei base fee). -/
theorem analyze_recommendation_witness :
    report0.recommendedForZK.maxPriorityFeeGwei =
      round3 (max (median []) (pct [] (1/2)) * (6/5)) ∧
    report0.recommendedForZK.maxFeePerGasGwei =
      round3 (pct [2, 2] (1/2) + report0.recommendedForZK.maxPriorityFeeGwei) :=
  analyze_recommendation client0 1 2 1 (1/2) 3 0 1 report0 [2, 2] [] []
    (by decide) (by decide)

/-- C7 counterexample: two runs with the identical chain client and the
identical parameters, differing only in the wall-clock readings that
`time.time()` delivers, return different reports (`timingSec` differs), so
the report is not a pure function of chain responses and parameters
alone. -/
theorem analyze_not_clock_independent :
    analyze_fees client0 1 2 1 (1/2) 3 0 0 ≠ analyze_fees client0 1 2 1 (1/2) 3 0 1 := by
  decide

/-- C7 amended: every field of the report except `timingSec` is a pure
function of the chain-client responses and the parameters (two runs with
identical responses and parameters agree on everything once `timingSec`
is blanked), and `timingSec` itself is exactly the rounded elapsed
wall-clock time `round(t1 - t0, 2)`. -/
theorem analyze_pure_except_timing (client : ℤ → Option Block) (cid w s : ℤ) (q : ℚ)
    (head : ℤ) (t0 t1 t0' t1' : ℚ) :
    (analyze_fees client cid w s q head t0 t1).map eraseTiming =
      (analyze_fees client cid w s q head t0' t1').map eraseTiming ∧
    ∀ r, analyze_fees client cid w s q head t0 t1 = some r →
      r.timingSec = round2 (t1 - t0) := by
  simp only [analyze_fees]
  cases hcol : collect client (sampleHeights head (max 0 (head - w + 1)) s) with
  | none => exact ⟨rfl, fun r hr => Option.noConfusion hr⟩
  | some v =>
    obtain ⟨bs, es, ts⟩ := v
    refine ⟨rfl, fun r hr => ?_⟩
    obtain rfl := Option.some_inj.mp hr
    rfl

/-- Witness for C7's amended theorem on `client0`. -/
theorem analyze_pure_except_timing_witness :
    (analyze_fees client0 1 2 1 (1/2) 3 0 1).map eraseTiming =
      (analyze_fees client0 1 2 1 (1/2) 3 5 9).map eraseTiming ∧
    report0.timingSec = round2 (1 - 0) :=
  ⟨(analyze_pure_except_timing client0 1 2 1 (1/2) 3 0 1 5 9).1,
    (analyze_pure_except_timing client0 1 2 1 (1/2) 3 0 1 5 9).2 report0 (by decide)⟩

/-- C8: on a fixed sample set with non-empty base-fee and tip series,
raising the target percentile from 0.5 to 0.95 never decreases the
recommended max fee. -/
theorem recommendation_monotone (base_fees tips : List ℚ)
    (h1 : base_fees ≠ []) (h2 : tips ≠ []) :
    recommended_max_fee base_fees tips (0.5 : ℚ) ≤
      recommended_max_fee base_fees tips (0.95 : ℚ) := by
  have hq : (0.5 : ℚ) ≤ (0.95 : ℚ) := by norm_num
  unfold recommended_max_fee recommended_tip
  simp only [if_neg h1, if_neg h2]
  apply round3_mono
  apply add_le_add (pct_mono_q base_fees hq)
  apply round3_mono
  exact mul_le_mul_of_nonneg_right
    (max_le_max le_rfl (pct_mono_q tips hq)) (by norm_num)

/-- Witness for C8 at `base_fees = [3]`, `tips = [2]`. -/
theorem recommendation_monotone_witness :
    ([3] : List ℚ) ≠ [] ∧ ([2] : List ℚ) ≠ [] ∧
    recommended_max_fee [3] [2] (0.5 : ℚ) ≤ recommended_max_fee [3] [2] (0.95 : ℚ) :=
  ⟨by decide, by decide, recommendation_monotone [3] [2] (by decide) (by decide)⟩

lemma fromWei_nonneg {x : ℤ} (h : 0 ≤ x) : 0 ≤ fromWei x :=
  div_nonneg (by exact_mod_cast h) (by norm_num)

lemma median_nonneg {l : List ℚ} (h : ∀ x ∈ l, 0 ≤ x) : 0 ≤ median l := by
  have hperm := List.perm_insertionSort (· ≤ ·) l
  have hmem : ∀ x ∈ List.insertionSort (· ≤ ·) l, 0 ≤ x :=
    fun x hx => h x (hperm.mem_iff.mp hx)
  unfold median
  dsimp only
  split_ifs with h0 h1
  · exact le_refl 0
  · exact hmem _ (getD_mem (Nat.div_lt_self (Nat.pos_of_ne_zero h0) one_lt_two))
  · have hn : 0 < (List.insertionSort (· ≤ ·) l).length := Nat.pos_of_ne_zero h0
    have hlt : (List.insertionSort (· ≤ ·) l).length / 2 <
        (List.insertionSort (· ≤ ·) l).length := Nat.div_lt_self hn one_lt_two
    have hlt' : (List.insertionSort (· ≤ ·) l).length / 2 - 1 <
        (List.insertionSort (· ≤ ·) l).length := by omega
    have := hmem _ (getD_mem hlt)
    have := hmem _ (getD_mem hlt')
    positivity

/-- C9: for a block whose fee fields (the block's `baseFeePerGas` and each
transaction's `gasPrice`, `maxFeePerGas`, `maxPriorityFeePerGas`, absent
fields reading as 0) are all non-negative, the extracted stats satisfy
`baseFee ≥ 0`, `medianEffectivePrice ≥ 0` and `medianTip ≥ 0`. -/
theorem block_stats_nonneg (b : Block)
    (hbf : 0 ≤ b.baseFeePerGas.getD 0)
    (htx : ∀ tx ∈ b.transactions, 0 ≤ tx.gasPrice.getD 0 ∧ 0 ≤ tx.maxFeePerGas.getD 0 ∧
      0 ≤ tx.maxPriorityFeePerGas.getD 0) :
    0 ≤ (sample_block_fees b).base_fee_gwei ∧
    0 ≤ (sample_block_fees b).median_effective_gwei ∧
    0 ≤ (sample_block_fees b).median_tip_gwei := by
  have heff : ∀ x ∈ b.transactions.map (eff_price_spec (b.baseFeePerGas.getD 0)), 0 ≤ x := by
    intro x hx
    obtain ⟨tx, htx', rfl⟩ := List.mem_map.mp hx
    obtain ⟨hg, hm, hp⟩ := htx tx htx'
    unfold eff_price_spec
    split_ifs
    · exact fromWei_nonneg (le_min hm (by linarith))
    · exact fromWei_nonneg hg
  have htip : ∀ x ∈ b.transactions.map (tip_spec (b.baseFeePerGas.getD 0)), 0 ≤ x := by
    intro x hx
    obtain ⟨tx, htx', rfl⟩ := List.mem_map.mp hx
    obtain ⟨hg, hm, hp⟩ := htx tx htx'
    unfold tip_spec
    split_ifs
    · exact fromWei_nonneg hp
    · exact fromWei_nonneg (le_max_left 0 _)
  simp only [sample_block_fees, extract_lists_eq]
  refine ⟨fromWei_nonneg hbf, ?_, ?_⟩
  · dsimp only
    split_ifs with h
    · exact le_refl 0
    · exact median_nonneg heff
  · dsimp only
    split_ifs with h
    · exact le_refl 0
    · exact median_nonneg htip

/-- Witness for C9 on `block0`. -/
theorem block_stats_nonneg_witness :
    (0 ≤ block0.baseFeePerGas.getD 0) ∧
    (0 ≤ (sample_block_fees block0).base_fee_gwei ∧
      0 ≤ (sample_block_fees block0).median_effective_gwei ∧
      0 ≤ (sample_block_fees block0).median_tip_gwei) :=
  ⟨by decide, block_stats_nonneg block0 (by decide) (by decide)⟩

/-- C10: `analyze_fees` accepts any `targetPercentile`, in or out of
`[0,1]`: whether it succeeds is independent of the percentile, and the
report's `targetPercentile` field is the caller's value unchanged (the
clamp lives only inside `pct`). -/
theorem analyze_percentile_passthrough (client : ℤ → Option Block) (cid w s : ℤ)
    (head : ℤ) (t0 t1 : ℚ) (q q' : ℚ) :
    (∀ r, analyze_fees client cid w s q head t0 t1 = some r → r.targetPercentile = q) ∧
    ((analyze_fees client cid w s q head t0 t1).isSome ↔
      (analyze_fees client cid w s q' head t0 t1).isSome) := by
  simp only [analyze_fees]
  cases hcol : collect client (sampleHeights head (max 0 (head - w + 1)) s) with
  | none => exact ⟨fun r hr => Option.noConfusion hr, Iff.rfl⟩
  | some v =>
    obtain ⟨bs, es, ts⟩ := v
    refine ⟨fun r hr => ?_, Iff.rfl⟩
    obtain rfl := Option.some_inj.mp hr
    rfl

/-- Witness for C10 with the out-of-range percentile 2 (and 5 on the other
side of the success-independence conjunct). -/
theorem analyze_percentile_passthrough_witness :
    report1.targetPercentile = 2 ∧
    ((analyze_fees client0 1 2 1 2 3 0 0).isSome ↔
      (analyze_fees client0 1 2 1 5 3 0 0).isSome) :=
  ⟨(analyze_percentile_passthrough client0 1 2 1 3 0 0 2 5).1 report1 (by decide),
    (analyze_percentile_passthrough client0 1 2 1 3 0 0 2 5).2⟩

end ZkFee
